import Mathlib

/-!
Billing-period arithmetic of the subscription service (`main.go`).

A shallow embedding of the four pure pieces of `main.go` (`parseMMYYYY`,
`formatMMYYYY`, `clampPeriod`, `countMonths`) and of the summing loop of the
`GET /subscriptions/aggregate/total` handler, followed by theorems about them.

Modelling choices.

* A Go `time.Time` is an instant.  Every instant has exactly one civil reading in
  UTC, and `Time` stores that reading: the year, the month (1..12, the range of
  `Time.Month()`), and the nanoseconds elapsed since 00:00 UTC on the first day of
  that month.  `Before`/`After` compare instants, which on UTC readings is the
  lexicographic comparison of the three fields.  The times of this program are
  in UTC: `parseMMYYYY` builds them with `time.UTC`, and the `date` columns hold
  what it built.
* Go `int` is the 64-bit two's-complement integer; `wrapInt` is its wrap-around.
* Go strings are byte strings.  The layout `"01-2006"` only ever matches ASCII
  bytes, so a string is read here as its list of characters.
-/

namespace GoCards

/-! `time.Time` -/

/-- A `time.Time` value, read in UTC. -/
structure Time where
  /-- what `Year()` returns -/
  year : Int
  /-- what `Month()` returns, `1` for January up to `12` for December -/
  month : Nat
  /-- nanoseconds since 00:00 UTC on day 1 of the month -/
  inMonth : Nat
  month_pos : 1 ≤ month
  month_le : month ≤ 12
deriving DecidableEq

namespace Time

/-- The zero value `time.Time{}`: January 1, year 1, 00:00:00 UTC. -/
def zero : Time := ⟨1, 1, 0, by decide, by decide⟩

/-- `t.IsZero()`: the instant is January 1, year 1, 00:00:00 UTC. -/
def IsZero (t : Time) : Bool :=
  decide (t.year = 1) && decide (t.month = 1) && decide (t.inMonth = 0)

/-- `t.Before(u)`: the instant `t` is strictly earlier than `u`. -/
def Before (t u : Time) : Bool :=
  decide (t.year < u.year ∨ (t.year = u.year ∧
    (t.month < u.month ∨ (t.month = u.month ∧ t.inMonth < u.inMonth))))

/-- `t.After(u)`: the instant `t` is strictly later than `u`. -/
def After (t u : Time) : Bool :=
  decide (u.year < t.year ∨ (u.year = t.year ∧
    (u.month < t.month ∨ (u.month = t.month ∧ u.inMonth < t.inMonth))))

/-- `t.Year()`. -/
def Year (t : Time) : Int := t.year

/-- `t.Month()`, as the integer underlying Go's `time.Month`. -/
def Month (t : Time) : Int := (t.month : Int)

/-- `time.Date(year, month, 1, 0, 0, 0, 0, time.UTC)`.  As in Go a month outside
1..12 is normalised by carrying into the year. -/
def Date (year : Int) (month : Int) : Time :=
  ⟨year + (month - 1) / 12, ((month - 1) % 12).toNat + 1, 0, by omega, by omega⟩

/-- The value is the first instant of its month (day 1, 00:00:00 UTC): the shape
of every value `parseMMYYYY` returns. -/
def IsFirstOfMonth (t : Time) : Prop := t.inMonth = 0

instance (t : Time) : Decidable t.IsFirstOfMonth := by
  unfold IsFirstOfMonth; infer_instance

/-- The number of the calendar month that contains `t`, counted in months from
January of year 0. -/
def monthOrdinal (t : Time) : Int := t.year * 12 + ((t.month : Int) - 1)

/-- The chronological order of instants, as the lexicographic order of the UTC
reading. -/
instance : LinearOrder Time where
  le a b := a.year < b.year ∨ (a.year = b.year ∧
    (a.month < b.month ∨ (a.month = b.month ∧ a.inMonth ≤ b.inMonth)))
  le_refl a := by simp
  le_trans a b c := by
    intro h1 h2
    show a.year < c.year ∨ (a.year = c.year ∧
      (a.month < c.month ∨ (a.month = c.month ∧ a.inMonth ≤ c.inMonth)))
    change a.year < b.year ∨ (a.year = b.year ∧
      (a.month < b.month ∨ (a.month = b.month ∧ a.inMonth ≤ b.inMonth))) at h1
    change b.year < c.year ∨ (b.year = c.year ∧
      (b.month < c.month ∨ (b.month = c.month ∧ b.inMonth ≤ c.inMonth))) at h2
    omega
  le_antisymm a b := by
    intro h1 h2
    change a.year < b.year ∨ (a.year = b.year ∧
      (a.month < b.month ∨ (a.month = b.month ∧ a.inMonth ≤ b.inMonth))) at h1
    change b.year < a.year ∨ (b.year = a.year ∧
      (b.month < a.month ∨ (b.month = a.month ∧ b.inMonth ≤ a.inMonth))) at h2
    cases a; cases b
    simp only [mk.injEq] at *
    omega
  le_total a b := by
    show (a.year < b.year ∨ (a.year = b.year ∧
      (a.month < b.month ∨ (a.month = b.month ∧ a.inMonth ≤ b.inMonth)))) ∨
      (b.year < a.year ∨ (b.year = a.year ∧
      (b.month < a.month ∨ (b.month = a.month ∧ b.inMonth ≤ a.inMonth))))
    omega
  decidableLE a b := by
    show Decidable (a.year < b.year ∨ (a.year = b.year ∧
      (a.month < b.month ∨ (a.month = b.month ∧ a.inMonth ≤ b.inMonth))))
    infer_instance

end Time

/-! Go `int` -/

/-- Wrap-around of a 64-bit two's-complement `int`: the representative of `x`
modulo `2^64` in `[-2^63, 2^63)`. -/
def wrapInt (x : Int) : Int :=
  (x + 9223372036854775808) % 18446744073709551616 - 9223372036854775808

/-! `clampPeriod` and `countMonths` -/

/-- Lines 60-63 of `clampPeriod`: `effectiveEnd`. -/
def effectiveEnd (end_ : Time) (subEnd : Option Time) : Time :=
  match subEnd with
  | some se => if !se.IsZero && se.Before end_ then se else end_
  | none => end_

/-- Lines 64-67 of `clampPeriod`: `overlapStart`. -/
def overlapStart (start subStart : Time) : Time :=
  if subStart.After start then subStart else start

/-- Lines 68-71 of `clampPeriod`: `overlapEnd`, from `end` and `effectiveEnd`. -/
def overlapEnd (end_ effEnd : Time) : Time :=
  if end_.Before effEnd then end_ else effEnd

/-- `clampPeriod(start, end, subStart, subEnd)`; a nil `subEnd` is `none`. -/
def clampPeriod (start end_ subStart : Time) (subEnd : Option Time) :
    Time × Time × Bool :=
  let effEnd := effectiveEnd end_ subEnd
  let oStart := overlapStart start subStart
  let oEnd := overlapEnd end_ effEnd
  if oStart.After oEnd then (Time.zero, Time.zero, false)
  else (oStart, oEnd, true)

/-- `clampPeriod` with the step of lines 69-71 removed (`overlapEnd := effectiveEnd`
and nothing more). -/
def clampPeriodSingleClamp (start end_ subStart : Time) (subEnd : Option Time) :
    Time × Time × Bool :=
  let effEnd := effectiveEnd end_ subEnd
  let oStart := overlapStart start subStart
  let oEnd := effEnd
  if oStart.After oEnd then (Time.zero, Time.zero, false)
  else (oStart, oEnd, true)

/-- `countMonths(start, end)`.  `Year()` of a Go time is bounded by the int64
second count of the instant (below `10^12` in absolute value), so this `int`
expression cannot overflow and is written over the integers. -/
def countMonths (start end_ : Time) : Int :=
  (end_.Year - start.Year) * 12 + (end_.Month - start.Month) + 1

/-! `time.Parse` and `Time.Format` for the layout `"01-2006"`

The layout splits (Go's `nextStdChunk`) into the chunk `stdZeroMonth` with empty
prefix, the chunk `stdLongYear` with prefix `"-"`, and an empty tail.  The
functions below are the helpers of package `time` that these chunks run. -/

/-- Why `time.Parse` failed. -/
inductive ParseError where
  /-- the generic `errBad` / `errAtoi` parse error -/
  | bad
  /-- the range error "month out of range" -/
  | monthOutOfRange
  /-- the error "extra text" for input left after the layout is consumed -/
  | extraText
deriving DecidableEq, Repr

/-- Go `isDigit(s, i)`: index `i` exists and holds a byte in `'0'..'9'`. -/
def isDigit (s : List Char) (i : Nat) : Bool :=
  match s.get? i with
  | none => false
  | some c => decide ('0' ≤ c) && decide (c ≤ '9')

/-- The byte arithmetic `int(c - '0')` on a digit byte. -/
def digitVal (c : Char) : Int := (c.toNat : Int) - ('0'.toNat : Int)

/-- Go `getnum(s, fixed)`: a one- or two-digit number at the head of `s`; with
`fixed` two digits are required. -/
def getnum (s : List Char) (fixed : Bool) : Except ParseError (Int × List Char) :=
  if !isDigit s 0 then .error .bad
  else if !isDigit s 1 then
    if fixed then .error .bad
    else .ok (digitVal (s.getD 0 '0'), s.drop 1)
  else .ok (digitVal (s.getD 0 '0') * 10 + digitVal (s.getD 1 '0'), s.drop 2)

/-- Go `skip(value, pre)` for a literal `pre` without spaces (the only literal of
this layout is `"-"`): `value` must start with `pre`, which is removed. -/
def skip : List Char → List Char → Except ParseError (List Char)
  | value, [] => .ok value
  | [], _ :: _ => .error .bad
  | v :: value, p :: pre => if v ≠ p then .error .bad else skip value pre

/-- Go `leadingInt(s)`, with the accumulator `x` made explicit: the leading
decimal digits of `s` as a number and the rest of `s`; `none` on overflow. -/
def leadingInt : List Char → Nat → Option (Nat × List Char)
  | [], x => some (x, [])
  | c :: s, x =>
    if c < '0' ∨ c > '9' then some (x, c :: s)
    else if x > 9223372036854775808 / 10 then none
    else
      let y := x * 10 + c.toNat - '0'.toNat
      if y > 9223372036854775808 then none else leadingInt s y

/-- Go `atoi(s)`: an optional sign, then digits only. -/
def atoi (s : List Char) : Except ParseError Int :=
  let neg := decide (s.head? = some '-')
  let s := if s.head? = some '-' ∨ s.head? = some '+' then s.drop 1 else s
  match leadingInt s 0 with
  | none => .error .bad
  | some (q, rem) =>
    if rem.length > 0 then .error .bad
    else if neg then .ok (-(q : Int)) else .ok (q : Int)

/-- The call `time.Parse("01-2006", value)`.  Neither a day nor a zone is parsed,
so the day defaults to 1, which every month has, and the result is built by
`Date(year, month, 1, 0, 0, 0, 0, UTC)`. -/
def timeParse (value : List Char) : Except ParseError Time :=
  match getnum value true with
  | .error e => .error e
  | .ok (month, value) =>
    if month ≤ 0 ∨ 12 < month then .error .monthOutOfRange
    else
      match skip value ['-'] with
      | .error e => .error e
      | .ok value =>
        if value.length < 4 ∨ !isDigit value 0 then .error .bad
        else
          match atoi (value.take 4) with
          | .error e => .error e
          | .ok year =>
            if (value.drop 4).length ≠ 0 then .error .extraText
            else .ok (Time.Date year month)

/-- Go `utod` inside `appendInt`: the digit byte `'0' + byte(u)`. -/
def utod (u : Nat) : Char := Char.ofNat ('0'.toNat + u)

/-- Go `appendInt(b, x, width)`: the decimal form of `x`, zero-padded to `width`
digits, after a minus sign when `x < 0`. -/
def appendInt (b : List Char) (x : Int) (width : Nat) : List Char :=
  let u := x.natAbs
  let b := if x < 0 then b ++ ['-'] else b
  if width = 2 ∧ u < 100 then b ++ [utod (u / 10), utod (u % 10)]
  else if width = 4 ∧ u < 10000 then
    b ++ [utod (u / 1000), utod (u / 100 % 10), utod (u / 10 % 10), utod (u % 10)]
  else
    let digits := Nat.toDigits 10 u
    b ++ List.replicate (width - digits.length) '0' ++ digits

/-- The call `t.Format("01-2006")`: the month in two digits, `"-"`, the year in
four. -/
def timeFormat (t : Time) : List Char :=
  appendInt (appendInt [] t.Month 2 ++ ['-']) t.Year 4

/-! `parseMMYYYY` and `formatMMYYYY` -/

/-- `parseMMYYYY(value)`: the Go pair `(time.Time, error)`, the error `none` for
nil.  On failure the time is the zero value. -/
def parseMMYYYY (value : String) : Time × Option ParseError :=
  match timeParse value.toList with
  | .error e => (Time.zero, some e)
  | .ok t => (Time.Date t.Year t.Month, none)

/-- `formatMMYYYY(t)`: a nil pointer, as argument or as result, is `none`. -/
def formatMMYYYY (t : Option Time) : Option String :=
  match t with
  | none => none
  | some t => if t.IsZero then none else some (String.mk (timeFormat t))

/-! The aggregate loop -/

/-- The fields of `Subscription` that the aggregate loop reads. -/
structure Subscription where
  /-- the Go `int` field `Price` -/
  Price : Int
  /-- the field `StartDate` -/
  StartDate : Time
  /-- the field `EndDate`, `none` for a nil pointer -/
  EndDate : Option Time
deriving DecidableEq

/-- One iteration of the loop of lines 295-300 on the running `total`. -/
def aggregateStep (start end_ : Time) (total : Int) (sub : Subscription) : Int :=
  match clampPeriod start end_ sub.StartDate sub.EndDate with
  | (s, e, true) => wrapInt (total + wrapInt (sub.Price * countMonths s e))
  | (_, _, false) => total

/-- Lines 294-300 of the aggregate handler: `total` after the loop over `rows`. -/
def aggregateTotal (start end_ : Time) (rows : List Subscription) : Int :=
  rows.foldl (aggregateStep start end_) 0

/-! The specification's side of the comparisons -/

/-- The end date as `clampPeriod` reads it: an end date that is the zero time
counts as absent. -/
def readEnd (subEnd : Option Time) : Option Time :=
  subEnd.filter (fun e => !e.IsZero)

/-- The effective end in the specification's words: `min(qe, se)` if `se` is
present, else `qe`. -/
def specEffectiveEnd (qe : Time) (se : Option Time) : Time :=
  match se with
  | some e => min qe e
  | none => qe

/-- Period Clamp in the specification's words: with `S = max(qs, ss)` and the
effective end `E`, the overlap `[S, E]` when `S ≤ E`, and no overlap otherwise. -/
def specClamp (qs qe ss : Time) (se : Option Time) : Time × Time × Bool :=
  if max qs ss ≤ specEffectiveEnd qe se then
    (max qs ss, specEffectiveEnd qe se, true)
  else (Time.zero, Time.zero, false)

/-- The calendar months, by ordinal, that a subscription `[ss, se]` is billed for
in the window `[ps, pe]`: the months `m` of the window with `ss ≤ m`, and with
`m ≤ se` when an end is present. -/
def billedMonths (ps pe ss : Time) (se : Option Time) : Finset Int :=
  (Finset.Icc ps.monthOrdinal pe.monthOrdinal).filter
    (fun m => ss.monthOrdinal ≤ m ∧ ∀ e ∈ se, m ≤ e.monthOrdinal)

/-- The sum over the subscriptions of `Price` times the number of billed months,
over the integers, each end date read through `f`. -/
def monthSum (f : Option Time → Option Time) (ps pe : Time)
    (rows : List Subscription) : Int :=
  (rows.map (fun sub =>
    sub.Price * ((billedMonths ps pe sub.StartDate (f sub.EndDate)).card : Int))).sum

/-- What one subscription adds in the loop, over the integers. -/
def contribution (start end_ : Time) (sub : Subscription) : Int :=
  match clampPeriod start end_ sub.StartDate sub.EndDate with
  | (s, e, true) => sub.Price * countMonths s e
  | (_, _, false) => 0

/-- The loop's total over the integers, without wrap-around. -/
def exactTotal (start end_ : Time) (rows : List Subscription) : Int :=
  (rows.map (contribution start end_)).sum

/-- The shape `MM-YYYY`: seven characters, two decimal digits that form a month
01..12, a hyphen, four decimal digits. -/
def isMMYYYY : List Char → Bool
  | [a, b, h, c, d, e, f] =>
    a.isDigit && b.isDigit && h == '-' && c.isDigit && d.isDigit && e.isDigit &&
      f.isDigit && decide (1 ≤ (a.toNat - 48) * 10 + (b.toNat - 48)) &&
      decide ((a.toNat - 48) * 10 + (b.toNat - 48) ≤ 12)
  | _ => false

/-! The order on `Time` -/

namespace Time

theorem le_def (a b : Time) : a ≤ b ↔ (a.year < b.year ∨ (a.year = b.year ∧
    (a.month < b.month ∨ (a.month = b.month ∧ a.inMonth ≤ b.inMonth)))) := Iff.rfl

theorem lt_def (a b : Time) : a < b ↔ (a.year < b.year ∨ (a.year = b.year ∧
    (a.month < b.month ∨ (a.month = b.month ∧ a.inMonth < b.inMonth)))) := by
  rw [lt_iff_le_not_le, le_def, le_def]
  omega

theorem Before_iff (a b : Time) : a.Before b = true ↔ a < b := by
  rw [lt_def]; simp [Before]

theorem After_iff (a b : Time) : a.After b = true ↔ b < a := by
  rw [lt_def]; simp [After]

theorem IsZero_iff (t : Time) : t.IsZero = true ↔ t = zero := by
  cases t
  simp [IsZero, zero, and_assoc]

theorem eq_iff (a b : Time) :
    a = b ↔ a.year = b.year ∧ a.month = b.month ∧ a.inMonth = b.inMonth := by
  cases a; cases b; simp

theorem monthOrdinal_mono {a b : Time} (h : a ≤ b) :
    a.monthOrdinal ≤ b.monthOrdinal := by
  rw [le_def] at h
  have := a.month_pos; have := a.month_le
  have := b.month_pos; have := b.month_le
  unfold monthOrdinal
  omega

/-- On first-of-month values the chronological order is the order of the month
ordinals. -/
theorem le_iff_monthOrdinal_le {a b : Time} (ha : a.IsFirstOfMonth)
    (hb : b.IsFirstOfMonth) : a ≤ b ↔ a.monthOrdinal ≤ b.monthOrdinal := by
  unfold IsFirstOfMonth at ha hb
  rw [le_def]
  have := a.month_pos; have := a.month_le
  have := b.month_pos; have := b.month_le
  unfold monthOrdinal
  omega

end Time

/-! `clampPeriod` -/

theorem effectiveEnd_le (qe : Time) (se : Option Time) : effectiveEnd qe se ≤ qe := by
  unfold effectiveEnd
  split
  · split
    · rename_i h
      simp only [Bool.and_eq_true, Time.Before_iff] at h
      exact le_of_lt h.2
    · exact le_refl _
  · exact le_refl _

theorem overlapEnd_effectiveEnd (qe : Time) (se : Option Time) :
    overlapEnd qe (effectiveEnd qe se) = effectiveEnd qe se := by
  unfold overlapEnd
  rw [if_neg]
  rw [Time.Before_iff]
  exact not_lt.mpr (effectiveEnd_le qe se)

theorem readEnd_some_of_not_zero {e : Time} (hz : e.IsZero = false) :
    readEnd (some e) = some e := by
  simp [readEnd, Option.filter, hz]

theorem readEnd_some_of_zero {e : Time} (hz : e.IsZero = true) :
    readEnd (some e) = none := by
  simp [readEnd, Option.filter, hz]

theorem effectiveEnd_eq_spec (qe : Time) (se : Option Time) :
    effectiveEnd qe se = specEffectiveEnd qe (readEnd se) := by
  cases se with
  | none => rfl
  | some e =>
    by_cases hz : e.IsZero = true
    · rw [readEnd_some_of_zero hz]
      simp [effectiveEnd, specEffectiveEnd, hz]
    · simp only [Bool.not_eq_true] at hz
      rw [readEnd_some_of_not_zero hz]
      simp only [effectiveEnd, specEffectiveEnd, hz, Bool.not_false, Bool.true_and,
        Time.Before_iff, min_def]
      split_ifs with h1 h2 h2
      · exact le_antisymm (le_of_lt h1) h2
      · rfl
      · rfl
      · exact absurd (le_of_not_lt h1) h2

theorem overlapStart_eq_max (qs ss : Time) : overlapStart qs ss = max qs ss := by
  simp only [overlapStart, Time.After_iff, max_def]
  split_ifs with h1 h2 h2
  · rfl
  · exact absurd (le_of_lt h1) h2
  · exact le_antisymm h2 (le_of_not_lt h1)
  · rfl

theorem clampPeriod_eq (qs qe ss : Time) (se : Option Time) :
    clampPeriod qs qe ss se =
      if max qs ss ≤ effectiveEnd qe se then (max qs ss, effectiveEnd qe se, true)
      else (Time.zero, Time.zero, false) := by
  simp only [clampPeriod, overlapEnd_effectiveEnd, overlapStart_eq_max, Time.After_iff]
  by_cases h : max qs ss ≤ effectiveEnd qe se
  · rw [if_neg (not_lt.mpr h), if_pos h]
  · rw [if_pos (not_le.mp h), if_neg h]

theorem clampPeriod_readEnd (qs qe ss : Time) (se : Option Time) :
    clampPeriod qs qe ss se = specClamp qs qe ss (readEnd se) := by
  rw [clampPeriod_eq, effectiveEnd_eq_spec, specClamp]

theorem clampPeriod_ok {qs qe ss s e : Time} {se : Option Time}
    (h : clampPeriod qs qe ss se = (s, e, true)) :
    max qs ss ≤ effectiveEnd qe se ∧ s = max qs ss ∧ e = effectiveEnd qe se := by
  rw [clampPeriod_eq] at h
  split_ifs at h with hle
  · simp only [Prod.mk.injEq, and_true] at h
    exact ⟨hle, h.1.symm, h.2.symm⟩
  · simp at h

theorem countMonths_eq_ordinal (s e : Time) :
    countMonths s e = e.monthOrdinal - s.monthOrdinal + 1 := by
  simp only [countMonths, Time.Year, Time.Month, Time.monthOrdinal]
  ring

theorem countMonths_pos {s e : Time} (h : s ≤ e) : 1 ≤ countMonths s e := by
  have := Time.monthOrdinal_mono h
  rw [countMonths_eq_ordinal]
  omega

/-! Claims about `clampPeriod` and `countMonths` -/

/-- C2, as stated, fails: for the window January..February of year 1 and a
subscription that starts in January of year 1 and whose end date is present and
equal to January of year 1, the claim gives the overlap January..January, while
`clampPeriod` returns January..February. -/
theorem clampPeriod_ne_specClamp_zero_end :
    clampPeriod (Time.Date 1 1) (Time.Date 1 2) (Time.Date 1 1) (some (Time.Date 1 1))
        ≠ specClamp (Time.Date 1 1) (Time.Date 1 2) (Time.Date 1 1)
          (some (Time.Date 1 1)) ∧
      specClamp (Time.Date 1 1) (Time.Date 1 2) (Time.Date 1 1) (some (Time.Date 1 1))
        = (Time.Date 1 1, Time.Date 1 1, true) ∧
      clampPeriod (Time.Date 1 1) (Time.Date 1 2) (Time.Date 1 1)
        (some (Time.Date 1 1)) = (Time.Date 1 1, Time.Date 1 2, true) := by
  decide

/-- C2, amended: for every window `(qs, qe)` and subscription interval
`(ss, se)`, let `E = min(qe, se)` if `se` is present and is not the zero time,
and `E = qe` otherwise.  Then `clampPeriod` reports an overlap exactly when
`max(qs, ss) ≤ E`, and then returns `[max(qs, ss), E]`; otherwise it returns
`ok = false` with two zero times.  It has no error result. -/
theorem clampPeriod_eq_specClamp (qs qe ss : Time) (se : Option Time) :
    clampPeriod qs qe ss se = specClamp qs qe ss (readEnd se) :=
  clampPeriod_readEnd qs qe ss se

/-- C8: the second clamp of `clampPeriod` is redundant.  After the step
`if end.Before(effectiveEnd) { overlapEnd = end }` the value of `overlapEnd` is
`effectiveEnd`, and `clampPeriod` equals its variant without that step. -/
theorem clampPeriod_second_clamp_redundant (qs qe ss : Time) (se : Option Time) :
    overlapEnd qe (effectiveEnd qe se) = effectiveEnd qe se ∧
      clampPeriod qs qe ss se = clampPeriodSingleClamp qs qe ss se := by
  refine ⟨overlapEnd_effectiveEnd qe se, ?_⟩
  simp only [clampPeriod, clampPeriodSingleClamp, overlapEnd_effectiveEnd]

/-- C9: when `clampPeriod(qs, qe, ss, se)` reports an overlap `[s, e]` then
`s ≤ e`, `qs ≤ s`, `ss ≤ s` and `e ≤ qe`; so `countMonths(s, e)`, the call the
aggregate loop makes, is at least 1 and at most `countMonths(qs, qe)`. -/
theorem clampPeriod_overlap_bounds (qs qe ss s e : Time) (se : Option Time)
    (h : clampPeriod qs qe ss se = (s, e, true)) :
    s ≤ e ∧ qs ≤ s ∧ ss ≤ s ∧ e ≤ qe ∧
      1 ≤ countMonths s e ∧ countMonths s e ≤ countMonths qs qe := by
  obtain ⟨hle, hs, he⟩ := clampPeriod_ok h
  subst hs; subst he
  have h1 : qs ≤ max qs ss := le_max_left _ _
  have h2 : effectiveEnd qe se ≤ qe := effectiveEnd_le qe se
  refine ⟨hle, h1, le_max_right _ _, h2, countMonths_pos hle, ?_⟩
  have := Time.monthOrdinal_mono h1
  have := Time.monthOrdinal_mono h2
  rw [countMonths_eq_ordinal, countMonths_eq_ordinal]
  omega

/-- C9 at the window January..April 2024 and a subscription from March 2024
without end: the overlap is March..April, two months out of the window's four. -/
theorem clampPeriod_overlap_bounds_witness :
    clampPeriod (Time.Date 2024 1) (Time.Date 2024 4) (Time.Date 2024 3) none
        = (Time.Date 2024 3, Time.Date 2024 4, true) ∧
      (Time.Date 2024 3 ≤ Time.Date 2024 4 ∧ Time.Date 2024 1 ≤ Time.Date 2024 3 ∧
        Time.Date 2024 3 ≤ Time.Date 2024 3 ∧ Time.Date 2024 4 ≤ Time.Date 2024 4 ∧
        1 ≤ countMonths (Time.Date 2024 3) (Time.Date 2024 4) ∧
        countMonths (Time.Date 2024 3) (Time.Date 2024 4)
          ≤ countMonths (Time.Date 2024 1) (Time.Date 2024 4)) :=
  ⟨by decide,
    clampPeriod_overlap_bounds (Time.Date 2024 1) (Time.Date 2024 4) (Time.Date 2024 3)
      (Time.Date 2024 3) (Time.Date 2024 4) none (by decide)⟩

/-- C10: an end date that is present and equal to the zero time (January of
year 1, which is what `parseMMYYYY("01-0001")` returns) is handled as absent:
`clampPeriod` returns what it returns for a nil end date. -/
theorem clampPeriod_zero_end_is_open (qs qe ss : Time) :
    parseMMYYYY "01-0001" = (Time.zero, none) ∧ Time.zero.IsZero = true ∧
      clampPeriod qs qe ss (some Time.zero) = clampPeriod qs qe ss none := by
  refine ⟨by decide, by decide, ?_⟩
  simp [clampPeriod, effectiveEnd, show Time.zero.IsZero = true from by decide]

/-- C3: for `s ≤ e`, `countMonths(s, e)` is
`(e.year - s.year) * 12 + (e.month - s.month) + 1`, it is at least 1, and it is
the number of calendar months from the month of `s` to the month of `e`, both
included. -/
theorem countMonths_inclusive (s e : Time) (h : s ≤ e) :
    countMonths s e = (e.year - s.year) * 12 + ((e.month : Int) - (s.month : Int)) + 1 ∧
      1 ≤ countMonths s e ∧
      countMonths s e = ((Finset.Icc s.monthOrdinal e.monthOrdinal).card : Int) := by
  refine ⟨rfl, countMonths_pos h, ?_⟩
  have := Time.monthOrdinal_mono h
  rw [countMonths_eq_ordinal, Int.card_Icc, Int.toNat_of_nonneg (by omega)]
  ring

/-- C3 at the three pinned intervals: January 2024 alone is 1 month, January to
December 2024 is 12 months, March 2024 to February 2025 is 12 months. -/
theorem countMonths_inclusive_witness :
    countMonths (Time.Date 2024 1) (Time.Date 2024 1) = 1 ∧
      countMonths (Time.Date 2024 1) (Time.Date 2024 12) = 12 ∧
      countMonths (Time.Date 2024 3) (Time.Date 2025 2) = 12 :=
  ⟨(countMonths_inclusive (Time.Date 2024 1) (Time.Date 2024 1) (by decide)).1.trans
      (by decide),
    (countMonths_inclusive (Time.Date 2024 1) (Time.Date 2024 12) (by decide)).1.trans
      (by decide),
    (countMonths_inclusive (Time.Date 2024 3) (Time.Date 2025 2) (by decide)).1.trans
      (by decide)⟩

/-! The aggregate loop -/

theorem wrapInt_add (a b : Int) : wrapInt (wrapInt a + wrapInt b) = wrapInt (a + b) := by
  unfold wrapInt
  omega

theorem wrapInt_of_fits {x : Int} (h1 : -9223372036854775808 ≤ x)
    (h2 : x < 9223372036854775808) : wrapInt x = x := by
  unfold wrapInt
  omega

theorem aggregateStep_wrapInt (ps pe : Time) (a : Int) (sub : Subscription) :
    aggregateStep ps pe (wrapInt a) sub = wrapInt (a + contribution ps pe sub) := by
  unfold aggregateStep contribution
  split
  · rw [wrapInt_add]
  · rw [add_zero]

theorem foldl_aggregateStep (ps pe : Time) (rows : List Subscription) (a : Int) :
    rows.foldl (aggregateStep ps pe) (wrapInt a) = wrapInt (a + exactTotal ps pe rows) := by
  induction rows generalizing a with
  | nil => simp [exactTotal]
  | cons sub rest ih =>
    rw [List.foldl_cons, aggregateStep_wrapInt, ih]
    simp only [exactTotal, List.map_cons, List.sum_cons]
    rw [add_assoc]

theorem aggregateTotal_eq_wrapInt (ps pe : Time) (rows : List Subscription) :
    aggregateTotal ps pe rows = wrapInt (exactTotal ps pe rows) := by
  have h := foldl_aggregateStep ps pe rows 0
  rw [zero_add] at h
  exact h

theorem contribution_nonneg (ps pe : Time) (sub : Subscription) (hp : 0 ≤ sub.Price) :
    0 ≤ contribution ps pe sub := by
  unfold contribution
  split
  · rename_i s e h
    have := countMonths_pos (clampPeriod_ok h).1
    rw [← (clampPeriod_ok h).2.1, ← (clampPeriod_ok h).2.2] at this
    exact mul_nonneg hp (by omega)
  · exact le_refl 0

theorem exactTotal_nonneg (ps pe : Time) (rows : List Subscription)
    (hp : ∀ sub ∈ rows, 0 ≤ sub.Price) : 0 ≤ exactTotal ps pe rows := by
  unfold exactTotal
  apply List.sum_nonneg
  intro x hx
  rw [List.mem_map] at hx
  obtain ⟨sub, hsub, rfl⟩ := hx
  exact contribution_nonneg ps pe sub (hp sub hsub)

theorem clampPeriod_inverted (ps pe ss e : Time) (hz : e.IsZero = false) (hinv : e < ss) :
    clampPeriod ps pe ss (some e) = (Time.zero, Time.zero, false) := by
  rw [clampPeriod_eq]
  rw [if_neg]
  rw [effectiveEnd_eq_spec, readEnd_some_of_not_zero hz]
  show ¬ max ps ss ≤ min pe e
  intro h
  have h1 : ss ≤ max ps ss := le_max_right _ _
  have h2 : min pe e ≤ e := min_le_right _ _
  exact absurd (le_trans h1 (le_trans h h2)) (not_le.mpr hinv)

/-- C6, as stated, fails: a subscription that starts in February of year 1 and
whose end date is present and equal to January of year 1 (so strictly before the
start) overlaps the window February..February of year 1 and adds its price. -/
theorem inverted_zero_end_is_billed :
    Time.Date 1 1 < Time.Date 1 2 ∧ Time.Date 1 2 ≤ Time.Date 1 2 ∧
      clampPeriod (Time.Date 1 2) (Time.Date 1 2) (Time.Date 1 2) (some (Time.Date 1 1))
        = (Time.Date 1 2, Time.Date 1 2, true) ∧
      aggregateTotal (Time.Date 1 2) (Time.Date 1 2)
        [⟨100, Time.Date 1 2, some (Time.Date 1 1)⟩] = 100 ∧
      aggregateStep (Time.Date 1 2) (Time.Date 1 2) 0
        ⟨100, Time.Date 1 2, some (Time.Date 1 1)⟩ ≠ 0 := by
  decide

/-- C6, amended: for every subscription whose end date is present, is not the
zero time (January of year 1), and is strictly before its start, and for every
query window, `clampPeriod` reports no overlap, the loop leaves the running total
unchanged, and the subscription alone totals 0.  There is no error result. -/
theorem inverted_subscription_adds_nothing (ps pe : Time) (sub : Subscription)
    (e : Time) (he : sub.EndDate = some e) (hz : e.IsZero = false)
    (hinv : e < sub.StartDate) :
    (clampPeriod ps pe sub.StartDate sub.EndDate).2.2 = false ∧
      (∀ total : Int, aggregateStep ps pe total sub = total) ∧
      aggregateTotal ps pe [sub] = 0 := by
  have h := clampPeriod_inverted ps pe sub.StartDate e hz hinv
  rw [← he] at h
  refine ⟨by rw [h], ?_, ?_⟩
  · intro total
    simp only [aggregateStep, h]
  · simp only [aggregateTotal, List.foldl_cons, List.foldl_nil, aggregateStep, h]

/-- C6 at a subscription of price 100 from June 2024 with end January 2024, in the
window January..December 2024. -/
theorem inverted_subscription_adds_nothing_witness :
    (clampPeriod (Time.Date 2024 1) (Time.Date 2024 12) (Time.Date 2024 6)
        (some (Time.Date 2024 1))).2.2 = false ∧
      (∀ total : Int, aggregateStep (Time.Date 2024 1) (Time.Date 2024 12) total
        ⟨100, Time.Date 2024 6, some (Time.Date 2024 1)⟩ = total) ∧
      aggregateTotal (Time.Date 2024 1) (Time.Date 2024 12)
        [⟨100, Time.Date 2024 6, some (Time.Date 2024 1)⟩] = 0 :=
  inverted_subscription_adds_nothing (Time.Date 2024 1) (Time.Date 2024 12)
    ⟨100, Time.Date 2024 6, some (Time.Date 2024 1)⟩ (Time.Date 2024 1) rfl
    (by decide) (by decide)

/-- C7, as stated, fails: one subscription of price `2^62` without end, billed
for the two months January..February 2024, makes the Go `int` total wrap around
to `-2^63`. -/
theorem aggregateTotal_negative_by_overflow :
    (0 : Int) ≤ 4611686018427387904 ∧ Time.Date 2024 1 ≤ Time.Date 2024 2 ∧
      aggregateTotal (Time.Date 2024 1) (Time.Date 2024 2)
        [⟨4611686018427387904, Time.Date 2024 1, none⟩] = -9223372036854775808 ∧
      ¬ 0 ≤ aggregateTotal (Time.Date 2024 1) (Time.Date 2024 2)
        [⟨4611686018427387904, Time.Date 2024 1, none⟩] := by
  decide

/-- C7, amended: for every window and every list of subscriptions with
non-negative prices whose contributions sum, over the integers, to less than
`2^63`, the aggregate total equals that sum and is non-negative; for the empty
list it is 0. -/
theorem aggregateTotal_nonneg (ps pe : Time) (rows : List Subscription)
    (hp : ∀ sub ∈ rows, 0 ≤ sub.Price)
    (hfit : exactTotal ps pe rows < 9223372036854775808) :
    0 ≤ aggregateTotal ps pe rows ∧
      aggregateTotal ps pe rows = exactTotal ps pe rows ∧
      aggregateTotal ps pe [] = 0 := by
  have h0 := exactTotal_nonneg ps pe rows hp
  have h := aggregateTotal_eq_wrapInt ps pe rows
  rw [wrapInt_of_fits (by omega) hfit] at h
  exact ⟨by omega, h, rfl⟩

/-- C7 at the scenario of the specification: prices 100 and 50, window
January..April 2024, total 500. -/
theorem aggregateTotal_nonneg_witness :
    0 ≤ aggregateTotal (Time.Date 2024 1) (Time.Date 2024 4)
        [⟨100, Time.Date 2024 1, some (Time.Date 2024 6)⟩,
          ⟨50, Time.Date 2024 3, none⟩] ∧
      aggregateTotal (Time.Date 2024 1) (Time.Date 2024 4)
        [⟨100, Time.Date 2024 1, some (Time.Date 2024 6)⟩,
          ⟨50, Time.Date 2024 3, none⟩] =
        exactTotal (Time.Date 2024 1) (Time.Date 2024 4)
          [⟨100, Time.Date 2024 1, some (Time.Date 2024 6)⟩,
            ⟨50, Time.Date 2024 3, none⟩] ∧
      aggregateTotal (Time.Date 2024 1) (Time.Date 2024 4) [] = 0 :=
  aggregateTotal_nonneg (Time.Date 2024 1) (Time.Date 2024 4)
    [⟨100, Time.Date 2024 1, some (Time.Date 2024 6)⟩, ⟨50, Time.Date 2024 3, none⟩]
    (by decide) (by decide)


theorem monthOrdinal_monotone : Monotone Time.monthOrdinal :=
  fun _ _ h => Time.monthOrdinal_mono h

theorem isFirstOfMonth_max {a b : Time} (ha : a.IsFirstOfMonth) (hb : b.IsFirstOfMonth) :
    (max a b).IsFirstOfMonth := by
  rcases max_choice a b with h | h <;> rw [h] <;> assumption

theorem isFirstOfMonth_min {a b : Time} (ha : a.IsFirstOfMonth) (hb : b.IsFirstOfMonth) :
    (min a b).IsFirstOfMonth := by
  rcases min_choice a b with h | h <;> rw [h] <;> assumption

theorem mem_of_mem_readEnd {e : Time} {se : Option Time} (h : e ∈ readEnd se) : e ∈ se := by
  cases se with
  | none => simp [readEnd] at h
  | some x =>
    by_cases hz : x.IsZero = true
    · rw [readEnd_some_of_zero hz] at h; simp at h
    · simp only [Bool.not_eq_true] at hz
      rw [readEnd_some_of_not_zero hz] at h; exact h

theorem billedMonths_eq_Icc (ps pe ss : Time) (se : Option Time) :
    billedMonths ps pe ss se =
      Finset.Icc (max ps ss).monthOrdinal (specEffectiveEnd pe se).monthOrdinal := by
  have hS := monthOrdinal_monotone.map_max (a := ps) (b := ss)
  ext m
  cases se with
  | none =>
    simp only [billedMonths, specEffectiveEnd, Finset.mem_filter, Finset.mem_Icc, hS,
      Option.mem_def, false_imp_iff, implies_true, and_true, reduceCtorEq]
    omega
  | some e =>
    have hE := monthOrdinal_monotone.map_min (a := pe) (b := e)
    simp only [billedMonths, specEffectiveEnd, Finset.mem_filter, Finset.mem_Icc, hS, hE,
      Option.mem_def, Option.some.injEq, forall_eq']
    omega

theorem billed_card_of_le {S E : Time} (h : S ≤ E) :
    ((Finset.Icc S.monthOrdinal E.monthOrdinal).card : Int) = countMonths S E := by
  have := Time.monthOrdinal_mono h
  rw [countMonths_eq_ordinal, Int.card_Icc, Int.toNat_of_nonneg (by omega)]
  ring

theorem contribution_eq_billed (ps pe : Time) (sub : Subscription)
    (hps : ps.IsFirstOfMonth) (hpe : pe.IsFirstOfMonth)
    (hss : sub.StartDate.IsFirstOfMonth) (hse : ∀ e ∈ sub.EndDate, e.IsFirstOfMonth) :
    contribution ps pe sub =
      sub.Price * ((billedMonths ps pe sub.StartDate (readEnd sub.EndDate)).card : Int) := by
  have hS : (max ps sub.StartDate).IsFirstOfMonth := isFirstOfMonth_max hps hss
  have hE : (specEffectiveEnd pe (readEnd sub.EndDate)).IsFirstOfMonth := by
    cases hr : readEnd sub.EndDate with
    | none => exact hpe
    | some e =>
      have he : e ∈ readEnd sub.EndDate := hr
      exact isFirstOfMonth_min hpe (hse e (mem_of_mem_readEnd he))
  rw [billedMonths_eq_Icc]
  unfold contribution
  rw [clampPeriod_readEnd]
  unfold specClamp
  by_cases h : max ps sub.StartDate ≤ specEffectiveEnd pe (readEnd sub.EndDate)
  · rw [if_pos h, billed_card_of_le h]
  · rw [if_neg h]
    have h' := (Time.le_iff_monthOrdinal_le hS hE).not.mp h
    rw [Finset.Icc_eq_empty (by omega)]
    simp

theorem exactTotal_eq_monthSum (ps pe : Time) (rows : List Subscription)
    (hps : ps.IsFirstOfMonth) (hpe : pe.IsFirstOfMonth)
    (hrows : ∀ sub ∈ rows,
      sub.StartDate.IsFirstOfMonth ∧ ∀ e ∈ sub.EndDate, e.IsFirstOfMonth) :
    exactTotal ps pe rows = monthSum readEnd ps pe rows := by
  unfold exactTotal monthSum
  congr 1
  apply List.map_congr_left
  intro sub hsub
  exact contribution_eq_billed ps pe sub hps hpe (hrows sub hsub).1 (hrows sub hsub).2

/-- C1, as stated, fails in two ways.  A subscription of price 100 that starts
in January of year 1 and whose end date is present and equal to January of year 1
is billed for all twelve months of the window January..December of year 1, where
the claimed sum counts one month.  A subscription of price `2^62` billed for two
months makes the Go `int` total wrap around to `-2^63`, where the claimed sum is
`2^63`.  All dates are first-of-month values and both windows have
`periodStart ≤ periodEnd`. -/
theorem aggregateTotal_ne_claimed_sum :
    (Time.Date 1 1 ≤ Time.Date 1 12 ∧
      (Time.Date 1 1).IsFirstOfMonth ∧ (Time.Date 1 12).IsFirstOfMonth ∧
      (∀ sub ∈ [(⟨100, Time.Date 1 1, some (Time.Date 1 1)⟩ : Subscription)],
        sub.StartDate.IsFirstOfMonth ∧ ∀ e ∈ sub.EndDate, e.IsFirstOfMonth) ∧
      aggregateTotal (Time.Date 1 1) (Time.Date 1 12)
        [⟨100, Time.Date 1 1, some (Time.Date 1 1)⟩] ≠
      monthSum id (Time.Date 1 1) (Time.Date 1 12)
        [⟨100, Time.Date 1 1, some (Time.Date 1 1)⟩] ∧
      aggregateTotal (Time.Date 1 1) (Time.Date 1 12)
        [⟨100, Time.Date 1 1, some (Time.Date 1 1)⟩] = 1200 ∧
      monthSum id (Time.Date 1 1) (Time.Date 1 12)
        [⟨100, Time.Date 1 1, some (Time.Date 1 1)⟩] = 100) ∧
    (Time.Date 2024 1 ≤ Time.Date 2024 2 ∧
      (Time.Date 2024 1).IsFirstOfMonth ∧ (Time.Date 2024 2).IsFirstOfMonth ∧
      (∀ sub ∈ [(⟨4611686018427387904, Time.Date 2024 1, none⟩ : Subscription)],
        sub.StartDate.IsFirstOfMonth ∧ ∀ e ∈ sub.EndDate, e.IsFirstOfMonth) ∧
      aggregateTotal (Time.Date 2024 1) (Time.Date 2024 2)
        [⟨4611686018427387904, Time.Date 2024 1, none⟩] ≠
      monthSum id (Time.Date 2024 1) (Time.Date 2024 2)
        [⟨4611686018427387904, Time.Date 2024 1, none⟩] ∧
      aggregateTotal (Time.Date 2024 1) (Time.Date 2024 2)
        [⟨4611686018427387904, Time.Date 2024 1, none⟩] = -9223372036854775808 ∧
      monthSum id (Time.Date 2024 1) (Time.Date 2024 2)
        [⟨4611686018427387904, Time.Date 2024 1, none⟩] = 9223372036854775808) := by
  decide

/-- C1, amended: for every window and every list of subscriptions, all dates
first-of-month values, the total of the aggregate loop is the 64-bit wrap-around
of the sum over the subscriptions of `Price` times the number of calendar months
`m` with `periodStart ≤ m ≤ periodEnd`, `StartDate ≤ m`, and (`EndDate` absent, or
equal to the zero time January of year 1, or `m ≤ EndDate`); it equals that sum
whenever the sum lies in `[-2^63, 2^63)`. -/
theorem aggregateTotal_eq_monthSum (ps pe : Time) (rows : List Subscription)
    (hps : ps.IsFirstOfMonth) (hpe : pe.IsFirstOfMonth)
    (hrows : ∀ sub ∈ rows,
      sub.StartDate.IsFirstOfMonth ∧ ∀ e ∈ sub.EndDate, e.IsFirstOfMonth) :
    aggregateTotal ps pe rows = wrapInt (monthSum readEnd ps pe rows) ∧
      (-9223372036854775808 ≤ monthSum readEnd ps pe rows →
        monthSum readEnd ps pe rows < 9223372036854775808 →
        aggregateTotal ps pe rows = monthSum readEnd ps pe rows) := by
  have h := aggregateTotal_eq_wrapInt ps pe rows
  rw [exactTotal_eq_monthSum ps pe rows hps hpe hrows] at h
  refine ⟨h, fun h1 h2 => ?_⟩
  rw [h, wrapInt_of_fits h1 h2]

/-- C1 at the scenario of the specification: S1 (price 100, January..June 2024)
and S2 (price 50, from March 2024, no end) in the window January..April 2024
total 500. -/
theorem aggregateTotal_eq_monthSum_witness :
    aggregateTotal (Time.Date 2024 1) (Time.Date 2024 4)
        [⟨100, Time.Date 2024 1, some (Time.Date 2024 6)⟩,
          ⟨50, Time.Date 2024 3, none⟩] = 500 ∧
      monthSum readEnd (Time.Date 2024 1) (Time.Date 2024 4)
        [⟨100, Time.Date 2024 1, some (Time.Date 2024 6)⟩,
          ⟨50, Time.Date 2024 3, none⟩] = 500 :=
  ⟨((aggregateTotal_eq_monthSum (Time.Date 2024 1) (Time.Date 2024 4)
      [⟨100, Time.Date 2024 1, some (Time.Date 2024 6)⟩, ⟨50, Time.Date 2024 3, none⟩]
      (by decide) (by decide) (by decide)).2 (by decide) (by decide)).trans (by decide),
    by decide⟩

/-! `parseMMYYYY` and `formatMMYYYY` -/

theorem digit_iff (c : Char) : ('0' ≤ c ∧ c ≤ '9') ↔ c.isDigit = true := by
  simp only [Char.isDigit, Char.le_def, Bool.and_eq_true, decide_eq_true_eq, ge_iff_le]
  rfl

theorem digit_toNat (c : Char) : c.isDigit = true ↔ 48 ≤ c.toNat ∧ c.toNat ≤ 57 := by
  simp only [Char.isDigit, Bool.and_eq_true, decide_eq_true_eq, ge_iff_le, Char.toNat,
    UInt32.le_def]
  rfl

theorem not_digit_iff (c : Char) : (c < '0' ∨ c > '9') ↔ c.isDigit = false := by
  rw [← Bool.not_eq_true, ← digit_iff, not_and_or, not_le, not_le]

theorem isDigit_cons_zero (c : Char) (s : List Char) : isDigit (c :: s) 0 = c.isDigit := by
  simp only [isDigit, List.get?_cons_zero]
  by_cases h : c.isDigit = true
  · rw [h]; have := (digit_iff c).mpr h; simp [this.1, this.2]
  · simp only [Bool.not_eq_true] at h
    rw [h]
    have := (digit_iff c).not.mpr (by simp [h])
    simp only [Bool.and_eq_false_iff, decide_eq_false_iff_not]
    exact not_and_or.mp this

theorem isDigit_nil (i : Nat) : isDigit [] i = false := rfl

theorem isDigit_cons_succ (c : Char) (s : List Char) (i : Nat) :
    isDigit (c :: s) (i + 1) = isDigit s i := by
  simp [isDigit]

theorem digitVal_eq (c : Char) (h : c.isDigit = true) :
    digitVal c = ((c.toNat - 48 : Nat) : Int) := by
  have := (digit_toNat c).mp h
  unfold digitVal
  have h0 : '0'.toNat = 48 := rfl
  rw [h0]
  omega

theorem getnum_fixed_ok {l rest : List Char} {m : Int}
    (h : getnum l true = .ok (m, rest)) :
    ∃ a b, l = a :: b :: rest ∧ a.isDigit = true ∧ b.isDigit = true ∧
      m = digitVal a * 10 + digitVal b := by
  rcases l with _ | ⟨a, _ | ⟨b, r⟩⟩
  · simp [getnum, isDigit_nil] at h
  · simp [getnum, isDigit_cons_zero, isDigit_cons_succ, isDigit_nil] at h
  · simp only [getnum, isDigit_cons_zero, isDigit_cons_succ] at h
    by_cases ha : a.isDigit = true
    · by_cases hb : b.isDigit = true
      · simp [ha, hb] at h
        exact ⟨a, b, by rw [h.2], ha, hb, h.1.symm⟩
      · simp [ha, hb] at h
    · simp [ha] at h

theorem getnum_fixed_of_digits (a b : Char) (rest : List Char) (ha : a.isDigit = true)
    (hb : b.isDigit = true) :
    getnum (a :: b :: rest) true = .ok (digitVal a * 10 + digitVal b, rest) := by
  simp [getnum, isDigit_cons_zero, isDigit_cons_succ, ha, hb]

theorem skip_hyphen_ok {l rest : List Char} (h : skip l ['-'] = .ok rest) :
    l = '-' :: rest := by
  rcases l with _ | ⟨a, r⟩
  · simp [skip] at h
  · simp only [skip] at h
    by_cases ha : a = '-'
    · subst ha; simp [skip] at h; rw [h]
    · simp [ha] at h

theorem leadingInt_digit (c : Char) (s : List Char) (x : Nat) (hc : c.isDigit = true)
    (hx : x ≤ 1000) : leadingInt (c :: s) x = leadingInt s (x * 10 + (c.toNat - 48)) := by
  have h1 : ¬ (c < '0' ∨ c > '9') := by rw [not_digit_iff, hc]; simp
  have h2 := (digit_toNat c).mp hc
  have h0 : '0'.toNat = 48 := rfl
  rw [leadingInt, if_neg h1, if_neg (by omega)]
  simp only [h0]
  rw [if_neg (by omega)]
  congr 1
  omega

theorem leadingInt_nondigit (c : Char) (s : List Char) (x : Nat) (hc : c.isDigit = false) :
    leadingInt (c :: s) x = some (x, c :: s) := by
  have h1 : (c < '0' ∨ c > '9') := by rw [not_digit_iff, hc]
  rw [leadingInt, if_pos h1]

theorem digit_ne_sign (c : Char) (hc : c.isDigit = true) : c ≠ '-' ∧ c ≠ '+' := by
  constructor <;> (intro h; subst h; revert hc; decide)

theorem atoi_four (c d e f : Char) (hc : c.isDigit = true) :
    atoi [c, d, e, f] =
      if d.isDigit = true ∧ e.isDigit = true ∧ f.isDigit = true then
        .ok (((((c.toNat - 48) * 10 + (d.toNat - 48)) * 10 + (e.toNat - 48)) * 10
          + (f.toNat - 48) : Nat) : Int)
      else .error .bad := by
  have hs := digit_ne_sign c hc
  have h9 := (digit_toNat c).mp hc
  simp only [atoi, List.head?_cons, Option.some.injEq, hs.1, hs.2, or_self, if_false,
    decide_False, Bool.false_eq_true]
  rw [leadingInt_digit c _ 0 hc (by omega)]
  by_cases hd : d.isDigit = true
  · have hd9 := (digit_toNat d).mp hd
    rw [leadingInt_digit d _ _ hd (by omega)]
    by_cases he : e.isDigit = true
    · have he9 := (digit_toNat e).mp he
      rw [leadingInt_digit e _ _ he (by omega)]
      by_cases hf : f.isDigit = true
      · have hf9 := (digit_toNat f).mp hf
        rw [leadingInt_digit f _ _ hf (by omega)]
        simp [leadingInt, hd, he, hf]
      · simp only [Bool.not_eq_true] at hf
        rw [leadingInt_nondigit f _ _ hf]
        simp [hf]
    · simp only [Bool.not_eq_true] at he
      rw [leadingInt_nondigit e _ _ he]
      simp [he]
  · simp only [Bool.not_eq_true] at hd
    rw [leadingInt_nondigit d _ _ hd]
    simp [hd]

theorem timeParse_of_shape (a b c d e f : Char) (ha : a.isDigit = true)
    (hb : b.isDigit = true) (hc : c.isDigit = true) (hd : d.isDigit = true)
    (he : e.isDigit = true) (hf : f.isDigit = true)
    (h1 : 1 ≤ (a.toNat - 48) * 10 + (b.toNat - 48))
    (h12 : (a.toNat - 48) * 10 + (b.toNat - 48) ≤ 12) :
    timeParse [a, b, '-', c, d, e, f] =
      .ok (Time.Date
        (((((c.toNat - 48) * 10 + (d.toNat - 48)) * 10 + (e.toNat - 48)) * 10
          + (f.toNat - 48) : Nat) : Int)
        (((a.toNat - 48) * 10 + (b.toNat - 48) : Nat) : Int)) := by
  have hm : digitVal a * 10 + digitVal b = (((a.toNat - 48) * 10 + (b.toNat - 48) : Nat) : Int) := by
    rw [digitVal_eq a ha, digitVal_eq b hb]; push_cast; ring
  unfold timeParse
  rw [getnum_fixed_of_digits a b _ ha hb]
  simp only [hm]
  rw [if_neg (by omega)]
  simp only [skip, ne_eq, not_true_eq_false, if_false, List.length_cons, List.length_nil,
    isDigit_cons_zero, hc, List.take, atoi_four c d e f hc, hd, he, hf, and_self, if_true,
    List.drop]
  simp

theorem timeParse_ok_shape {l : List Char} {t : Time} (h : timeParse l = .ok t) :
    isMMYYYY l = true := by
  unfold timeParse at h
  split at h
  · simp at h
  · rename_i month v1 hg
    obtain ⟨a, b, rfl, ha, hb, hm⟩ := getnum_fixed_ok hg
    by_cases hr : month ≤ 0 ∨ 12 < month
    · rw [if_pos hr] at h; simp at h
    rw [if_neg hr] at h
    split at h
    · simp at h
    · rename_i v2 hsk
      have := skip_hyphen_ok hsk
      subst this
      by_cases hlen : v2.length < 4 ∨ (!isDigit v2 0) = true
      · rw [if_pos hlen] at h; simp at h
      rw [if_neg hlen] at h
      simp only [not_or, not_lt, Bool.not_eq_true, Bool.not_eq_false'] at hlen
      obtain ⟨hl4, hd0⟩ := hlen
      rcases v2 with _ | ⟨c, _ | ⟨d, _ | ⟨e, _ | ⟨f, r⟩⟩⟩⟩
      · simp at hl4
      · simp at hl4
      · simp at hl4
      · simp at hl4
      · rw [isDigit_cons_zero] at hd0
        simp only [List.take, List.drop, atoi_four c d e f hd0] at h
        by_cases hdef : d.isDigit = true ∧ e.isDigit = true ∧ f.isDigit = true
        · rw [if_pos hdef] at h
          simp only at h
          by_cases hrest : r.length ≠ 0
          · rw [if_pos hrest] at h; simp at h
          simp only [ne_eq, List.length_eq_zero, not_not] at hrest
          subst hrest
          rw [digitVal_eq a ha, digitVal_eq b hb] at hm
          simp only [isMMYYYY, ha, hb, hd0, hdef.1, hdef.2.1, hdef.2.2, beq_self_eq_true,
            Bool.and_self, Bool.true_and, Bool.and_eq_true, decide_eq_true_eq]
          omega
        · rw [if_neg hdef] at h
          simp at h

theorem isMMYYYY_shape {l : List Char} (h : isMMYYYY l = true) :
    ∃ a b c d e f : Char, l = [a, b, '-', c, d, e, f] ∧ a.isDigit = true ∧
      b.isDigit = true ∧ c.isDigit = true ∧ d.isDigit = true ∧ e.isDigit = true ∧
      f.isDigit = true ∧ 1 ≤ (a.toNat - 48) * 10 + (b.toNat - 48) ∧
      (a.toNat - 48) * 10 + (b.toNat - 48) ≤ 12 := by
  rcases l with _ | ⟨a, _ | ⟨b, _ | ⟨x, _ | ⟨c, _ | ⟨d, _ | ⟨e, _ | ⟨f, _ | ⟨g, r⟩⟩⟩⟩⟩⟩⟩⟩
  all_goals try (simp [isMMYYYY] at h)
  obtain ⟨⟨⟨⟨⟨⟨⟨⟨ha, hb⟩, hx⟩, hc⟩, hd⟩, he⟩, hf⟩, h1⟩, h12⟩ := h
  subst hx
  exact ⟨a, b, c, d, e, f, rfl, ha, hb, hc, hd, he, hf, h1, h12⟩

theorem timeParse_ok_iff (l : List Char) :
    (∃ t, timeParse l = .ok t) ↔ isMMYYYY l = true := by
  constructor
  · rintro ⟨t, h⟩
    exact timeParse_ok_shape h
  · intro h
    obtain ⟨a, b, c, d, e, f, rfl, ha, hb, hc, hd, he, hf, h1, h12⟩ := isMMYYYY_shape h
    exact ⟨_, timeParse_of_shape a b c d e f ha hb hc hd he hf h1 h12⟩

theorem parseMMYYYY_ok_iff (text : String) :
    (parseMMYYYY text).2 = none ↔ isMMYYYY text.toList = true := by
  rw [← timeParse_ok_iff]
  unfold parseMMYYYY
  cases h : timeParse text.toList with
  | error e => simp
  | ok t => simp

theorem parseMMYYYY_error_zero (text : String) (h : (parseMMYYYY text).2 ≠ none) :
    (parseMMYYYY text).1 = Time.zero := by
  unfold parseMMYYYY at h ⊢
  cases h' : timeParse text.toList with
  | error e => rfl
  | ok t => rw [h'] at h; simp at h

theorem Date_self (v : Time) (hfirst : v.IsFirstOfMonth) :
    Time.Date v.year v.month = v := by
  have := v.month_pos; have := v.month_le
  unfold Time.IsFirstOfMonth at hfirst
  rw [Time.eq_iff]
  simp only [Time.Date]
  omega

theorem utod_isDigit (u : Nat) (h : u < 10) : (utod u).isDigit = true := by
  interval_cases u <;> decide

theorem utod_toNat (u : Nat) (h : u < 10) : (utod u).toNat = 48 + u := by
  interval_cases u <;> decide

theorem appendInt_two (b : List Char) (x : Int) (h0 : 0 ≤ x) (h : x < 100) :
    appendInt b x 2 = b ++ [utod (x.toNat / 10), utod (x.toNat % 10)] := by
  have hn : x.natAbs = x.toNat := by omega
  have h1 : ¬ x < 0 := by omega
  have h2 : x.toNat < 100 := by omega
  simp [appendInt, hn, h1, h2]

theorem appendInt_four (b : List Char) (x : Int) (h0 : 0 ≤ x) (h : x < 10000) :
    appendInt b x 4 = b ++ [utod (x.toNat / 1000), utod (x.toNat / 100 % 10),
      utod (x.toNat / 10 % 10), utod (x.toNat % 10)] := by
  have hn : x.natAbs = x.toNat := by omega
  have h1 : ¬ x < 0 := by omega
  have h2 : x.toNat < 10000 := by omega
  simp [appendInt, hn, h1, h2]

theorem timeFormat_eq (v : Time) (hy0 : 0 ≤ v.year) (hy : v.year ≤ 9999) :
    timeFormat v = [utod (v.month / 10), utod (v.month % 10), '-',
      utod (v.year.toNat / 1000), utod (v.year.toNat / 100 % 10),
      utod (v.year.toNat / 10 % 10), utod (v.year.toNat % 10)] := by
  have := v.month_le
  unfold timeFormat Time.Month Time.Year
  rw [appendInt_two _ _ (by omega) (by omega), appendInt_four _ _ hy0 (by omega)]
  simp

theorem timeParse_timeFormat (v : Time) (hfirst : v.IsFirstOfMonth) (hy0 : 0 ≤ v.year)
    (hy : v.year ≤ 9999) : timeParse (timeFormat v) = .ok v := by
  have := v.month_pos; have := v.month_le
  rw [timeFormat_eq v hy0 hy]
  have hm1 : v.month / 10 < 10 := by omega
  have hm2 : v.month % 10 < 10 := by omega
  have hy1 : v.year.toNat / 1000 < 10 := by omega
  have hy2 : v.year.toNat / 100 % 10 < 10 := by omega
  have hy3 : v.year.toNat / 10 % 10 < 10 := by omega
  have hy4 : v.year.toNat % 10 < 10 := by omega
  rw [timeParse_of_shape _ _ _ _ _ _ (utod_isDigit _ hm1) (utod_isDigit _ hm2)
    (utod_isDigit _ hy1) (utod_isDigit _ hy2) (utod_isDigit _ hy3) (utod_isDigit _ hy4)
    (by rw [utod_toNat _ hm1, utod_toNat _ hm2]; omega)
    (by rw [utod_toNat _ hm1, utod_toNat _ hm2]; omega)]
  congr 1
  rw [utod_toNat _ hm1, utod_toNat _ hm2, utod_toNat _ hy1, utod_toNat _ hy2,
    utod_toNat _ hy3, utod_toNat _ hy4]
  have e1 : (((48 + v.year.toNat / 1000 - 48) * 10 + (48 + v.year.toNat / 100 % 10 - 48)) * 10
      + (48 + v.year.toNat / 10 % 10 - 48)) * 10 + (48 + v.year.toNat % 10 - 48)
      = v.year.toNat := by omega
  have e2 : (48 + v.month / 10 - 48) * 10 + (48 + v.month % 10 - 48) = v.month := by omega
  rw [e1, e2, Int.toNat_of_nonneg hy0]
  exact Date_self v hfirst

/-- C5: `parseMMYYYY(text)` succeeds exactly when `text` is seven characters of
the shape `MM-YYYY` (two decimal digits that form a month 01..12, a hyphen, four
decimal digits); for every other string it returns an error together with the
zero time.  It fails for "13-2024", "2024-01", "1-2024", "" and "AB-CDEF". -/
theorem parseMMYYYY_accepts_exactly_MMYYYY :
    (∀ text : String,
      ((parseMMYYYY text).2 = none ↔ isMMYYYY text.toList = true) ∧
        ((parseMMYYYY text).2 ≠ none → (parseMMYYYY text).1 = Time.zero)) ∧
      (parseMMYYYY "13-2024").2 ≠ none ∧ (parseMMYYYY "2024-01").2 ≠ none ∧
      (parseMMYYYY "1-2024").2 ≠ none ∧ (parseMMYYYY "").2 ≠ none ∧
      (parseMMYYYY "AB-CDEF").2 ≠ none := by
  refine ⟨fun text => ⟨parseMMYYYY_ok_iff text, parseMMYYYY_error_zero text⟩, ?_, ?_, ?_,
    ?_, ?_⟩ <;> decide

/-- C4, as stated, fails: January of year 1 is a valid YearMonth (first of
the month, year within 0000..9999), and `formatMMYYYY` returns nil for it, because
it is the zero time. -/
theorem formatMMYYYY_zero_is_nil :
    (Time.Date 1 1).IsFirstOfMonth ∧ 0 ≤ (Time.Date 1 1).year ∧
      (Time.Date 1 1).year ≤ 9999 ∧ formatMMYYYY (some (Time.Date 1 1)) = none := by
  decide

/-- C4, amended: for every valid YearMonth `v` (year 0000..9999, month 1..12,
held as the first day of that month at 00:00 UTC) other than January of year 1,
`formatMMYYYY(v)` is a non-nil string and `parseMMYYYY` of that string succeeds
and returns `v`; for January of year 1, the zero time, `formatMMYYYY` returns
nil. -/
theorem parseMMYYYY_formatMMYYYY (v : Time) (hfirst : v.IsFirstOfMonth)
    (hy0 : 0 ≤ v.year) (hy : v.year ≤ 9999) (hnz : v ≠ Time.zero) :
    (∃ s : String, formatMMYYYY (some v) = some s ∧ parseMMYYYY s = (v, none)) ∧
      formatMMYYYY (some Time.zero) = none := by
  refine ⟨⟨String.mk (timeFormat v), ?_, ?_⟩, by decide⟩
  · have hz : v.IsZero = false := by
      rw [← Bool.not_eq_true, Time.IsZero_iff]; exact hnz
    simp [formatMMYYYY, hz]
  · show (match timeParse (timeFormat v) with
      | .error e => (Time.zero, some e)
      | .ok t => (Time.Date t.Year t.Month, none)) = (v, none)
    rw [timeParse_timeFormat v hfirst hy0 hy]
    show (Time.Date v.year v.month, (none : Option ParseError)) = (v, none)
    rw [Date_self v hfirst]

/-- C4 at January 2024, which formats as "01-2024". -/
theorem parseMMYYYY_formatMMYYYY_witness :
    formatMMYYYY (some (Time.Date 2024 1)) = some "01-2024" ∧
      ((∃ s : String, formatMMYYYY (some (Time.Date 2024 1)) = some s ∧
          parseMMYYYY s = (Time.Date 2024 1, none)) ∧
        formatMMYYYY (some Time.zero) = none) :=
  ⟨by decide,
    parseMMYYYY_formatMMYYYY (Time.Date 2024 1) (by decide) (by decide) (by decide)
      (by decide)⟩

end GoCards
